import Mathlib

/-!
Shallow embedding of `nvsmi.py`, the schema-driven hierarchical text
extractor.

Python strings are modelled as `List Char` (type `Line`); a report is a
`List Line`.  Python code that can raise an exception is modelled with
`Option` (`none` = the call raises).  Python `float` is modelled by exact
rationals extended with the non-finite values: binary64 rounding of decimal
literals, underscore digit grouping accepted by `float()`, and the exact
overflow threshold are not modelled bit-precisely (the decimal threshold
used here is `2 ^ 1024`); every concrete value appearing in the claims is
exactly representable, where the model and binary64 agree.
-/

abbrev Line := List Char

def chars (s : String) : Line := s.data

/-- The set of characters stripped by Python `str.strip()` and matched by
the regex class `\s` (ASCII part; the report text is ASCII). -/
def isPySpace (c : Char) : Bool :=
  c == ' ' || c == '\t' || c == '\n' || c == '\r' || c == '\x0b' || c == '\x0c'

/-- Python `str.strip()`: drop whitespace from both ends. -/
def pyStrip (l : Line) : Line :=
  ((l.dropWhile isPySpace).reverse.dropWhile isPySpace).reverse

/-- `len(line) - len(line.lstrip(' '))` from `lines_find_section`:
the number of leading space characters (only `' '` is stripped there). -/
def countLeadingSpaces (l : Line) : Nat :=
  (l.takeWhile (fun c => c == ' ')).length

/-- `name.replace('_', ' ')`: derive the report label from a field name. -/
def labelOf (name : Line) : Line :=
  name.map (fun c => if c == '_' then ' ' else c)

/-- The `'N/A'` sentinel string used by `IMixin.from_line`. -/
def naChars : Line := chars ("N/A")

/-- Python `needle in hay` on strings: substring containment. -/
def isSubstring (needle hay : Line) : Bool :=
  match hay with
  | [] => needle == []
  | _ :: t => needle.isPrefixOf hay || isSubstring needle t

/-- `lines_find_line` from the source: the first line that contains `title`
as a substring (`title in line`), or the empty string when none does. -/
def lines_find_line (lines : List Line) (title : Line) : Line :=
  match lines with
  | [] => []
  | l :: ls => if isSubstring title l then l else lines_find_line ls title

/-- The loop body of `lines_find_section`.  Faithful to the source: the
header test `title == line.strip()` is performed on every line, even after
the section has been found, and a match resets `indent` and appends the
line; otherwise, once found, a line strictly deeper than `indent` is
appended and any other line stops the scan (`break`). -/
def sectionGo (title : Line) : List Line → Bool → Nat → List Line
  | [], _, _ => []
  | l :: ls, found, indent =>
    if pyStrip l == title then
      l :: sectionGo title ls true (countLeadingSpaces l)
    else if found then
      if countLeadingSpaces l > indent then
        l :: sectionGo title ls found indent
      else []
    else sectionGo title ls found indent

/-- `lines_find_section` from the source (the initial `indent = -1` of the
source is never read before being set, so `0` is passed here). -/
def lines_find_section (lines : List Line) (title : Line) : List Line :=
  sectionGo title lines false 0

/-- A digit or a dot: the character class of the pattern `[\d\.]+`. -/
def isNumChar (c : Char) : Bool := c.isDigit || c == '.'

/-- `regex_find(val_s, r'[\d\.]+')` from the source: the leftmost maximal
run of digits and dots, or the empty string when the pattern has no match. -/
def regex_find_num (l : Line) : Line :=
  match l with
  | [] => []
  | c :: cs => if isNumChar c then c :: cs.takeWhile isNumChar else regex_find_num cs

/-- An exact rational in lowest terms with positive denominator, standing
for a finite Python float.  (Mathlib's `ℚ` is avoided only because its
arithmetic does not reduce inside the kernel; `Frac` values built below
are always normalized, so structural equality is value equality.) -/
structure Frac where
  num : Int
  den : Int
deriving DecidableEq

/-- Reduce a fraction with positive denominator to lowest terms. -/
def reduceFrac (n d : Int) : Frac :=
  let g : Int := (Int.gcd n d : Nat)
  ⟨n.tdiv g, d.tdiv g⟩

/-- A Python number as returned by `str_to_num`: an `int` or a finite
`float`. -/
inductive PyNum where
  | int (i : Int)
  | float (f : Frac)
deriving DecidableEq

/-- The result of Python `float()`: a finite value or one of the
non-finite values. -/
inductive PyFloat where
  | finite (f : Frac)
  | pinf
  | ninf
  | nan
deriving DecidableEq

def digitsToNat (ds : Line) : Nat :=
  ds.foldl (fun a c => a * 10 + (c.toNat - 48)) 0

/-- The decimal-literal part of Python `float()` (after sign handling):
`digits [. digits] [(e|E) [sign] digits]`, requiring at least one mantissa
digit and full consumption of the input.  The value is returned as an
unreduced numerator/denominator pair with the denominator a positive power
of ten. -/
def parseDecimal (l : Line) : Option (Int × Int) :=
  let ip := l.takeWhile Char.isDigit
  let r1 := l.dropWhile Char.isDigit
  let fr :=
    match r1 with
    | '.' :: t => (t.takeWhile Char.isDigit, t.dropWhile Char.isDigit)
    | _ => (([] : Line), r1)
  let fp := fr.1
  let r2 := fr.2
  if ip == [] && fp == [] then none
  else
    let n : Int := (digitsToNat (ip ++ fp) : Nat)
    let d : Int := ((10 : Nat) ^ fp.length : Nat)
    match r2 with
    | [] => some (n, d)
    | e :: t =>
      if e == 'e' || e == 'E' then
        let st :=
          match t with
          | '+' :: t2 => (false, t2)
          | '-' :: t2 => (true, t2)
          | _ => (false, t)
        let ed := st.2.takeWhile Char.isDigit
        if ed == [] || st.2.dropWhile Char.isDigit != [] then none
        else if st.1 then some (n, d * ((10 : Nat) ^ digitsToNat ed : Nat))
        else some (n * ((10 : Nat) ^ digitsToNat ed : Nat), d)
      else none

/-- The binary64 overflow threshold used by the model: `2 ^ 1024`,
written out as a literal so that it evaluates cheaply. -/
def overflowBound : Int := 179769313486231590772930519078902473361797697894230657273430081157732675805500963132708477322407536021120113879871393357658789768814416622492847430639474124377767893424865485276302219601246094119453082952085005768838150682342462881473913110540827237163350510684586298239947245938479716304835356329624224137216

/-- A finite decimal value beyond the binary64 range becomes an infinity
in Python `float()` (threshold approximated by `2 ^ 1024`); otherwise the
value is kept exactly, in lowest terms. -/
def toPyFloat (n d : Int) : PyFloat :=
  if overflowBound * d ≤ n then .pinf
  else if n ≤ -overflowBound * d then .ninf
  else .finite (reduceFrac n d)

/-- Python `float(s)`: strip whitespace, optional sign, then either a
case-insensitive `inf`/`infinity`/`nan` or a decimal literal.  `none`
models `ValueError`. -/
def parsePyFloat (s : Line) : Option PyFloat :=
  let t := pyStrip s
  match t with
  | [] => none
  | _ =>
    let sr :=
      match t with
      | '+' :: r => (false, r)
      | '-' :: r => (true, r)
      | r => (false, r)
    let neg := sr.1
    let low := sr.2.map Char.toLower
    if low == chars ("inf") || low == chars ("infinity") then
      some (if neg then .ninf else .pinf)
    else if low == chars ("nan") then some .nan
    else
      match parseDecimal sr.2 with
      | none => none
      | some nd => some (toPyFloat (if neg then -nd.1 else nd.1) nd.2)

/-- Python `int()` truncation toward zero of a finite float. -/
def truncF (f : Frac) : Int := f.num.tdiv f.den

/-- `str_to_num` from the source: `float(s)` then `int(fval)`; the value is
the `int` when the two are equal and the `float` otherwise; any exception
(`float()` failing to parse, or `int()` applied to an infinity or nan) is
caught by the bare `except` and yields `-1`. -/
def str_to_num (s : Line) : PyNum :=
  match parsePyFloat s with
  | some (.finite f) =>
    let i := truncF f
    if f.num = i * f.den then .int i else .float f
  | _ => .int (-1)

/-- A primitive field type of a schema: the class annotations `int`,
`float`, `str`, and the `Union[Literal[...], ...]` enumerated-string
annotations (which `from_lines` dispatches to the string branch, since
they are not classes). -/
inductive PrimType where
  | tInt
  | tFloat
  | tStr
  | tEnum (allowed : List Line)
deriving DecidableEq

mutual
/-- A field type: a primitive annotation or a nested `IOMixin` class. -/
inductive FieldType where
  | prim (t : PrimType)
  | nested (fs : Fields)
deriving DecidableEq

/-- A schema: the ordered `__annotations__` of an `IOMixin` class. -/
inductive Fields where
  | nil
  | cons (name : Line) (t : FieldType) (rest : Fields)
deriving DecidableEq
end

mutual
/-- A runtime value of a built record: a string, a number, or a nested
record. -/
inductive Value where
  | vStr (s : Line)
  | vNum (n : PyNum)
  | vRec (r : RecordT)
deriving DecidableEq

/-- A built record: the ordered instance attributes of an `IOMixin`
object. -/
inductive RecordT where
  | nil
  | cons (name : Line) (v : Value) (rest : RecordT)
deriving DecidableEq
end

/-- `IMixin.from_line` from the source: no colon in the line gives the
`'N/A'` sentinel; otherwise the text after the first colon is stripped
and, for `int`/`float` annotations, run through
`regex_find(·, r'[\d\.]+')` and `str_to_num`; all other annotations store
the stripped text verbatim. -/
def from_line (vtype : PrimType) (line : Line) : Value :=
  match line.findIdx? (fun c => c == ':') with
  | none => .vStr naChars
  | some p =>
    let val_s := pyStrip (line.drop (p + 1))
    match vtype with
    | .tInt | .tFloat => .vNum (str_to_num (regex_find_num val_s))
    | _ => .vStr val_s

mutual
/-- The per-field step of `IMixin.from_lines`: a nested `IOMixin`
annotation builds from `lines_find_section`, a primitive annotation from
`lines_find_line` and `from_line`. -/
def buildField (t : FieldType) (lines : List Line) (name : Line) : Value :=
  match t with
  | .prim pt => from_line pt (lines_find_line lines (labelOf name))
  | .nested fs => .vRec (from_lines fs (lines_find_section lines (labelOf name)))

/-- `IMixin.from_lines` from the source: build every annotated field, in
schema order. -/
def from_lines (fs : Fields) (lines : List Line) : RecordT :=
  match fs with
  | .nil => .nil
  | .cons name t rest => .cons name (buildField t lines name) (from_lines rest lines)
end

/-- A rendered value of `OMixin.to_dict`: a leaf or a nested mapping. -/
inductive DVal where
  | s (v : Line)
  | n (v : PyNum)
  | m (d : List (Line × DVal))

/-- The output mapping of `OMixin.to_dict`, in insertion order. -/
abbrev Dict := List (Line × DVal)

/-- The `value == 'N/A'` test of `to_dict` (Python `==` between a number
or an object and a string is `False`). -/
def isNA (v : Value) : Bool :=
  match v with
  | .vStr s => s == naChars
  | _ => false

def containsKeyD (k : Line) (d : Dict) : Bool :=
  match d with
  | [] => false
  | (k', _) :: rest => k' == k || containsKeyD k rest

def lookupD (k : Line) (d : Dict) : Option DVal :=
  match d with
  | [] => none
  | (k', v) :: rest => if k' == k then some v else lookupD k rest

mutual
/-- The rendered form of one non-sentinel value: nested records are
rendered recursively (the source dispatches on the annotation type; for
records built against their schema the annotation is a nested class
exactly when the value is a nested record, so the model dispatches on the
value's shape). -/
def renderVal (v : Value) : DVal :=
  match v with
  | .vStr s => .s s
  | .vNum n => .n n
  | .vRec r => .m (toDictGo r [])

/-- The loop of `OMixin.to_dict`: skip a field whose (machine) name is
already a key of the mapping, skip the `'N/A'` sentinel, and otherwise
append the rendered value under the field's label. -/
def toDictGo (r : RecordT) (data : Dict) : Dict :=
  match r with
  | .nil => data
  | .cons name v rest =>
    if containsKeyD name data then toDictGo rest data
    else if isNA v then toDictGo rest data
    else toDictGo rest (data ++ [(labelOf name, renderVal v)])
end

/-- `OMixin.to_dict` from the source. -/
def to_dict (r : RecordT) : Dict := toDictGo r []

def containsR (name : Line) (r : RecordT) : Bool :=
  match r with
  | .nil => false
  | .cons n _ rest => n == name || containsR name rest

def lookupR (name : Line) (r : RecordT) : Option Value :=
  match r with
  | .nil => none
  | .cons n v rest => if n == name then some v else lookupR name rest

/-- `setattr` on an existing attribute: replace the value in place. -/
def updateR (name : Line) (v : Value) (r : RecordT) : RecordT :=
  match r with
  | .nil => .nil
  | .cons n w rest =>
    if n == name then .cons n v rest else .cons n w (updateR name v rest)

/-- `setattr` on a missing attribute: append it. -/
def appendR (r : RecordT) (name : Line) (v : Value) : RecordT :=
  match r with
  | .nil => .cons name v .nil
  | .cons n w rest => .cons n w (appendR rest name v)

mutual
/-- `merge_object_attrs(a, b)` when `a` is an arbitrary attribute value:
`vars(b)` raises `TypeError` unless `b` is an object, so a leaf `b` is a
failure; a record `b` against a leaf `a` runs the loop over `b`'s
attributes, which is a no-op for an empty `b` (returning `a` unchanged)
and raises on the first attribute otherwise (`in`, indexing and item
assignment are unsupported or wrong-typed on leaf values). -/
def mergeVal (a b : Value) : Option Value :=
  match b with
  | .vRec bs =>
    match a with
    | .vRec as_ => (mergeRec as_ bs).map .vRec
    | leaf =>
      match bs with
      | .nil => some leaf
      | _ => none
  | _ => none

/-- The loop of `merge_object_attrs` over `vars(objB)`: a name missing
from `objA` is deep-copied (appended), a present name is merged
recursively; `none` models the `TypeError` raised on non-object
operands. -/
def mergeRec (dst src : RecordT) : Option RecordT :=
  match src with
  | .nil => some dst
  | .cons name v rest =>
    if containsR name dst then
      match lookupR name dst with
      | some a =>
        match mergeVal a v with
        | some m => mergeRec (updateR name m dst) rest
        | none => none
      | none => none
    else mergeRec (appendR dst name v) rest
end

/-- `merge_object_attrs` from the source, at the level of whole records. -/
def merge_object_attrs (objA objB : RecordT) : Option RecordT :=
  mergeRec objA objB

/-- One token of the fixed device-listing regex
`GPU\s+(\d+):\s+([^(]+)\s+\(UUID:\s+([\w\-]+)\)`: a literal, a captured
one-or-more character class, or an uncaptured one. -/
inductive Tok where
  | lit (s : Line)
  | plusCap (p : Char → Bool)
  | plusSkip (p : Char → Bool)

/-- Try `f k`, `f (k - 1)`, ..., `f 1`: the greedy backtracking semantics
of a `+` quantifier (longest repetition first). -/
def tryK {α : Type} (f : Nat → Option α) : Nat → Option α
  | 0 => none
  | k + 1 =>
    match f (k + 1) with
    | some r => some r
    | none => tryK f k

/-- Match a token sequence at the start of `cs` (trailing input may
remain), returning the captured groups. -/
def matchToks : List Tok → Line → Option (List Line)
  | [], _ => some []
  | .lit s :: rest, cs =>
    if s.isPrefixOf cs then matchToks rest (cs.drop s.length) else none
  | .plusCap p :: rest, cs =>
    tryK (fun k => (matchToks rest (cs.drop k)).map (fun caps => cs.take k :: caps))
      (cs.takeWhile p).length
  | .plusSkip p :: rest, cs =>
    tryK (fun k => matchToks rest (cs.drop k)) (cs.takeWhile p).length

/-- `\w` (ASCII part) of `REGEX_GPU_ENTRY`. -/
def isWordChar (c : Char) : Bool := c.isAlphanum || c == '_'

/-- The token sequence of `REGEX_GPU_ENTRY`. -/
def gpuToks : List Tok :=
  [.lit (chars ("GPU")), .plusSkip isPySpace, .plusCap Char.isDigit,
   .lit (chars (":")), .plusSkip isPySpace, .plusCap (fun c => c != '('),
   .plusSkip isPySpace, .lit (chars ("(UUID:")), .plusSkip isPySpace,
   .plusCap (fun c => isWordChar c || c == '-'), .lit (chars (")"))]

/-- `re.search` with `REGEX_GPU_ENTRY`: try a match at every start
position, leftmost first. -/
def searchGPU : Line → Option (List Line)
  | [] => none
  | c :: cs =>
    match matchToks gpuToks (c :: cs) with
    | some caps => some caps
    | none => searchGPU cs

/-- A device-listing entry (`NVSMI_Entry` of the source, restricted to
its three annotated fields, which are exactly what its constructor
sets). -/
structure NVSMI_Entry where
  device_id : Int
  model : Line
  uuid : Line
deriving DecidableEq

/-- One iteration of the loop of `NVSMI.list_gpus`: the entry built from
the three captured groups when the pattern matches, `none` otherwise. -/
def parseGPULine (l : Line) : Option NVSMI_Entry :=
  match searchGPU l with
  | some [d, m, u] => some ⟨(digitsToNat d : Nat), m, u⟩
  | _ => none

/-- The loop of `NVSMI.list_gpus` over an already-captured listing:
non-matching lines are skipped (`continue`). -/
def list_gpus (lines : List Line) : List NVSMI_Entry :=
  lines.filterMap parseGPULine

/-- The declared field names of a schema, in order. -/
def fieldNames : Fields → List Line
  | .nil => []
  | .cons n _ rest => n :: fieldNames rest

/-- The type of the first field of a schema with the given name. -/
def fieldAt (name : Line) : Fields → Option FieldType
  | .nil => none
  | .cons n t rest => if n == name then some t else fieldAt name rest

/-- The attribute names of a record, in order. -/
def recNames : RecordT → List Line
  | .nil => []
  | .cons n _ rest => n :: recNames rest

/-- Two machine names rendered together behave independently when their
labels differ and the second name does not equal the first one's label
(the latter rules out the `if name in data` skip of `to_dict`). -/
def namePairOk (a b : Line) : Bool :=
  (labelOf a != labelOf b) && (b != labelOf a)

/-- `namePairOk` for every ordered pair of the list.  It holds for every
schema of the source, whose field names are identifiers: distinct
identifier names have distinct labels, and a name containing no space
never equals a label derived from a different name. -/
def pairwiseOk : List Line → Bool
  | [] => true
  | a :: rest => rest.all (namePairOk a) && pairwiseOk rest

mutual
/-- A value has the shape required by a field type: a leaf for a
primitive annotation and a matching record for a nested one. -/
def valMatches : FieldType → Value → Bool
  | .prim _, .vStr _ => true
  | .prim _, .vNum _ => true
  | .prim _, .vRec _ => false
  | .nested fs, .vRec r => recMatches fs r
  | .nested _, .vStr _ => false
  | .nested _, .vNum _ => false

/-- A record has exactly the fields of a schema, in order, with matching
shapes, recursively. -/
def recMatches : Fields → RecordT → Bool
  | .nil, .nil => true
  | .cons n t fs, .cons n2 v r => n == n2 && valMatches t v && recMatches fs r
  | .nil, .cons _ _ _ => false
  | .cons _ _ _, .nil => false
end

mutual
/-- Every leaf of the value is the `'N/A'` sentinel. -/
def valAllNA : Value → Bool
  | .vStr s => s == naChars
  | .vNum _ => false
  | .vRec r => recAllNA r

/-- Every leaf of the record is the `'N/A'` sentinel. -/
def recAllNA : RecordT → Bool
  | .nil => true
  | .cons _ v rest => valAllNA v && recAllNA rest
end

/-- A leaf value (a Python `str`, `int` or `float` attribute, which has
no `__dict__`). -/
def isLeafV : Value → Bool
  | .vStr _ => true
  | .vNum _ => true
  | .vRec _ => false

theorem containsKeyD_append (k : Line) (d d2 : Dict) :
    containsKeyD k (d ++ d2) = (containsKeyD k d || containsKeyD k d2) := by
  induction d with
  | nil => rfl
  | cons kv rest ih => simp [containsKeyD, ih, Bool.or_assoc]

theorem lookupD_append (k : Line) (d d2 : Dict) :
    lookupD k (d ++ d2)
      = if containsKeyD k d then lookupD k d else lookupD k d2 := by
  induction d with
  | nil => rfl
  | cons kv rest ih =>
    by_cases h : kv.1 == k
    · simp [containsKeyD, lookupD, h]
    · simp [containsKeyD, lookupD, h, ih]

theorem containsKeyD_false_lookupD (k : Line) (d : Dict)
    (h : containsKeyD k d = false) : lookupD k d = none := by
  induction d with
  | nil => rfl
  | cons kv rest ih =>
    simp [containsKeyD] at h
    simp [lookupD, h.1, ih h.2]

theorem containsR_eq_isSome (name : Line) : ∀ r : RecordT,
    containsR name r = (lookupR name r).isSome
  | .nil => rfl
  | .cons n v rest => by
    by_cases h : n == name <;>
      simp [containsR, lookupR, h, containsR_eq_isSome name rest]

theorem lookupR_updateR_ne (name m : Line) (v : Value) (hne : m ≠ name) :
    ∀ r : RecordT, lookupR name (updateR m v r) = lookupR name r
  | .nil => rfl
  | .cons n w rest => by
    by_cases h : n == m
    · have : ¬(n == name) := by
        simp only [beq_iff_eq] at h ⊢
        exact h ▸ hne
      simp [updateR, lookupR, h, this]
    · by_cases h2 : n == name <;>
        simp [updateR, lookupR, h, h2, lookupR_updateR_ne name m v hne rest]

theorem lookupR_appendR_ne (name m : Line) (v : Value) (hne : m ≠ name) :
    ∀ r : RecordT, lookupR name (appendR r m v) = lookupR name r
  | .nil => by
    have : ¬(m == name) := by simpa using hne
    simp [appendR, lookupR, this]
  | .cons n w rest => by
    by_cases h : n == name <;>
      simp [appendR, lookupR, h, lookupR_appendR_ne name m v hne rest]

theorem lookupR_appendR_pres (name m : Line) (v x : Value) :
    ∀ r : RecordT, lookupR name r = some x →
      lookupR name (appendR r m v) = some x
  | .nil => by simp [lookupR]
  | .cons n w rest => by
    intro hx
    by_cases h : n == name
    · simpa [appendR, lookupR, h] using hx
    · simp only [lookupR, h, if_neg, if_false] at hx
      simpa [appendR, lookupR, h] using lookupR_appendR_pres name m v x rest hx

theorem lookupR_appendR_self (name : Line) (v : Value) :
    ∀ r : RecordT, containsR name r = false →
      lookupR name (appendR r name v) = some v
  | .nil => by intro _; simp [appendR, lookupR]
  | .cons n w rest => by
    intro h
    simp [containsR] at h
    simp [appendR, lookupR, h.1, lookupR_appendR_self name v rest h.2]

theorem lookupR_mem (name : Line) (v : Value) : ∀ r : RecordT,
    lookupR name r = some v → name ∈ recNames r
  | .nil => by simp [lookupR]
  | .cons n w rest => by
    by_cases h : n == name
    · simp [recNames, beq_iff_eq.mp h]
    · intro hv
      simp only [lookupR, h, if_neg] at hv
      simp [recNames, lookupR_mem name v rest (by simpa [lookupR, h] using hv)]

theorem lines_find_line_none (t : Line) (L : List Line)
    (h : ∀ l ∈ L, isSubstring t l = false) : lines_find_line L t = [] := by
  induction L with
  | nil => rfl
  | cons l ls ih =>
    simp [lines_find_line, h l (by simp)]
    exact ih (fun x hx => h x (by simp [hx]))

theorem regex_find_num_none (l : Line)
    (h : ∀ c ∈ l, isNumChar c = false) : regex_find_num l = [] := by
  induction l with
  | nil => rfl
  | cons c cs ih =>
    simp [regex_find_num, h c (by simp)]
    exact ih (fun x hx => h x (by simp [hx]))

theorem sectionGo_notfound (title : Line) (lines : List Line) (indent : Nat)
    (h : ∀ l ∈ lines, pyStrip l ≠ title) :
    sectionGo title lines false indent = [] := by
  induction lines generalizing indent with
  | nil => rfl
  | cons l ls ih =>
    have h1 : ¬(pyStrip l == title) := by simpa using h l (by simp)
    simp only [sectionGo, h1, if_neg, if_false]
    exact ih indent (fun x hx => h x (by simp [hx]))

theorem sectionGo_found (title : Line) (post : List Line) (h : Nat)
    (hpost : ∀ l ∈ post, pyStrip l ≠ title) :
    sectionGo title post true h
      = post.takeWhile (fun l => decide (h < countLeadingSpaces l)) := by
  induction post with
  | nil => rfl
  | cons l ls ih =>
    have h1 : ¬(pyStrip l == title) := by simpa using hpost l (by simp)
    by_cases h2 : h < countLeadingSpaces l
    · simp only [sectionGo, h1, if_neg, if_false, List.takeWhile]
      simp [h2, gt_iff_lt, ih (fun x hx => hpost x (by simp [hx]))]
    · simp only [sectionGo, h1, if_neg, if_false, List.takeWhile]
      simp [h2, gt_iff_lt]

theorem toDictGo_absent (k : Line) : ∀ (r : RecordT) (d : Dict),
    (∀ n ∈ recNames r, labelOf n ≠ k) → containsKeyD k d = false →
    lookupD k (toDictGo r d) = none
  | .nil, d => fun _ hd => containsKeyD_false_lookupD k d hd
  | .cons n v rest, d => by
    intro hr hd
    have hn : labelOf n ≠ k := hr n (by simp [recNames])
    have hr' : ∀ x ∈ recNames rest, labelOf x ≠ k :=
      fun x hx => hr x (by simp [recNames, hx])
    by_cases h1 : containsKeyD n d
    · simpa [toDictGo, h1] using toDictGo_absent k rest d hr' hd
    · by_cases h2 : isNA v
      · simpa [toDictGo, h1, h2] using toDictGo_absent k rest d hr' hd
      · have hd2 : containsKeyD k (d ++ [(labelOf n, renderVal v)]) = false := by
          simp [containsKeyD_append, containsKeyD, hd, hn]
        simpa [toDictGo, h1, h2] using toDictGo_absent k rest _ hr' hd2

theorem toDictGo_found (k : Line) : ∀ (r : RecordT) (d : Dict),
    containsKeyD k d = true → lookupD k (toDictGo r d) = lookupD k d
  | .nil, d => fun _ => rfl
  | .cons n v rest, d => by
    intro hd
    by_cases h1 : containsKeyD n d
    · simpa [toDictGo, h1] using toDictGo_found k rest d hd
    · by_cases h2 : isNA v
      · simpa [toDictGo, h1, h2] using toDictGo_found k rest d hd
      · have hd' : containsKeyD k (d ++ [(labelOf n, renderVal v)]) = true := by
          simp [containsKeyD_append, hd]
        have hstep := toDictGo_found k rest (d ++ [(labelOf n, renderVal v)]) hd'
        rw [lookupD_append, if_pos hd] at hstep
        simpa [toDictGo, h1, h2] using hstep

theorem toDictGo_main (name : Line) (v : Value) : ∀ (r : RecordT) (d : Dict),
    pairwiseOk (recNames r) = true →
    lookupR name r = some v →
    (∀ n ∈ recNames r, containsKeyD n d = false) →
    containsKeyD (labelOf name) d = false →
    lookupD (labelOf name) (toDictGo r d)
      = if isNA v then none else some (renderVal v)
  | .nil, d => by simp [lookupR]
  | .cons n w rest, d => by
    intro hpair hv hd1 hd2
    have hnd : containsKeyD n d = false := hd1 n (by simp [recNames])
    have hpair' : (recNames rest).all (namePairOk n) = true
        ∧ pairwiseOk (recNames rest) = true := by
      simpa [recNames, pairwiseOk, Bool.and_eq_true] using hpair
    by_cases hb : n == name
    · have hmn : n = name := beq_iff_eq.mp hb
      subst hmn
      have hwv : w = v := by simpa [lookupR] using hv
      subst hwv
      by_cases h2 : isNA w
      · have habs : ∀ x ∈ recNames rest, labelOf x ≠ labelOf n := by
          intro x hx
          have := List.all_eq_true.mp hpair'.1 x hx
          simp only [namePairOk, Bool.and_eq_true, bne_iff_ne, ne_eq] at this
          exact fun e => this.1 e.symm
        simp only [toDictGo, hnd, Bool.false_eq_true, if_false, h2, if_true]
        exact toDictGo_absent (labelOf n) rest d habs hd2
      · have hd' : containsKeyD (labelOf n) (d ++ [(labelOf n, renderVal w)]) = true := by
          simp [containsKeyD_append, containsKeyD]
        have hfound := toDictGo_found (labelOf n) rest (d ++ [(labelOf n, renderVal w)]) hd'
        rw [lookupD_append, if_neg (by simp [hd2])] at hfound
        simp only [lookupD, beq_self_eq_true, if_pos] at hfound
        simp only [toDictGo, hnd, Bool.false_eq_true, if_false, h2]
        exact hfound
    · have hv' : lookupR name rest = some v := by simpa [lookupR, hb] using hv
      have hmem : name ∈ recNames rest := lookupR_mem name v rest hv'
      have hlabne : labelOf n ≠ labelOf name := by
        have := List.all_eq_true.mp hpair'.1 name hmem
        simp only [namePairOk, Bool.and_eq_true, bne_iff_ne, ne_eq] at this
        exact this.1
      by_cases h2 : isNA w
      · simp only [toDictGo, hnd, Bool.false_eq_true, if_false, h2, if_true]
        exact toDictGo_main name v rest d hpair'.2 hv'
          (fun x hx => hd1 x (by simp [recNames, hx])) hd2
      · have hd1' : ∀ x ∈ recNames rest,
            containsKeyD x (d ++ [(labelOf n, renderVal w)]) = false := by
          intro x hx
          have hxd : containsKeyD x d = false := hd1 x (by simp [recNames, hx])
          have := List.all_eq_true.mp hpair'.1 x hx
          simp only [namePairOk, Bool.and_eq_true, bne_iff_ne, ne_eq] at this
          have hxne : labelOf n ≠ x := fun e => this.2 e.symm
          simp [containsKeyD_append, containsKeyD, hxd, hxne]
        have hd2' : containsKeyD (labelOf name) (d ++ [(labelOf n, renderVal w)]) = false := by
          simp [containsKeyD_append, containsKeyD, hd2, hlabne]
        simp only [toDictGo, hnd, Bool.false_eq_true, if_false, h2]
        exact toDictGo_main name v rest _ hpair'.2 hv' hd1' hd2'

theorem to_dict_lookup (r : RecordT) (name : Line) (v : Value)
    (hpair : pairwiseOk (recNames r) = true) (hv : lookupR name r = some v) :
    lookupD (labelOf name) (to_dict r)
      = if isNA v then none else some (renderVal v) :=
  toDictGo_main name v r [] hpair hv (fun _ _ => rfl) rfl

theorem lookupR_from_lines (name : Line) (L : List Line) :
    ∀ (S : Fields) (t : FieldType), fieldAt name S = some t →
      lookupR name (from_lines S L) = some (buildField t L name)
  | .nil, t => by simp [fieldAt]
  | .cons n t' rest, t => by
    intro h
    by_cases hb : n == name
    · have hmn : n = name := beq_iff_eq.mp hb
      subst hmn
      have ht : t' = t := by simpa [fieldAt] using h
      subst ht
      simp [from_lines, lookupR]
    · have h' : fieldAt name rest = some t := by simpa [fieldAt, hb] using h
      simp [from_lines, lookupR, hb, lookupR_from_lines name L rest t h']

theorem recNames_from_lines (L : List Line) : ∀ S : Fields,
    recNames (from_lines S L) = fieldNames S
  | .nil => rfl
  | .cons n t rest => by
    simp [from_lines, recNames, fieldNames, recNames_from_lines L rest]

theorem valMatches_from_line (pt : PrimType) (line : Line) :
    valMatches (.prim pt) (from_line pt line) = true := by
  unfold from_line
  split
  · rfl
  · cases pt <;> rfl

mutual
theorem valMatches_buildField : ∀ (t : FieldType) (L : List Line) (name : Line),
    valMatches t (buildField t L name) = true
  | .prim pt, L, name => by
    simpa [buildField] using valMatches_from_line pt (lines_find_line L (labelOf name))
  | .nested fs, L, name => by
    simpa [buildField, valMatches] using
      recMatches_from_lines fs (lines_find_section L (labelOf name))

theorem recMatches_from_lines : ∀ (S : Fields) (L : List Line),
    recMatches S (from_lines S L) = true
  | .nil, _ => rfl
  | .cons n t rest, L => by
    simp [from_lines, recMatches, valMatches_buildField t L n,
      recMatches_from_lines rest L]
end

theorem from_line_empty (pt : PrimType) : from_line pt [] = .vStr naChars := rfl

mutual
theorem valAllNA_buildField_empty : ∀ (t : FieldType) (name : Line),
    valAllNA (buildField t [] name) = true
  | .prim pt, name => by
    simp [buildField, lines_find_line, from_line_empty, valAllNA]
  | .nested fs, name => by
    simpa [buildField, valAllNA, lines_find_section, sectionGo] using
      recAllNA_from_lines_empty fs

theorem recAllNA_from_lines_empty : ∀ S : Fields,
    recAllNA (from_lines S []) = true
  | .nil => rfl
  | .cons n t rest => by
    simp [from_lines, recAllNA, valAllNA_buildField_empty t n,
      recAllNA_from_lines_empty rest]
end

theorem mergeRec_preserves (name : Line) : ∀ (src d res : RecordT),
    name ∉ recNames src → mergeRec d src = some res →
    lookupR name res = lookupR name d
  | .nil, d, res => by
    intro _ h
    simp only [mergeRec, Option.some.injEq] at h
    rw [h]
  | .cons m w rest, d, res => by
    intro hnm hm
    have hmne : m ≠ name := fun e => hnm (by simp [recNames, e])
    have hnm' : name ∉ recNames rest := fun hx => hnm (by simp [recNames, hx])
    by_cases hc : containsR m d
    · rcases hsome : lookupR m d with _ | a
      · rw [containsR_eq_isSome, hsome] at hc
        simp at hc
      · rcases hmv : mergeVal a w with _ | mm
        · simp [mergeRec, hc, hsome, hmv] at hm
        · have h2 : mergeRec (updateR m mm d) rest = some res := by
            simpa [mergeRec, hc, hsome, hmv] using hm
          rw [mergeRec_preserves name rest _ res hnm' h2]
          exact lookupR_updateR_ne name m mm hmne d
    · have h2 : mergeRec (appendR d m w) rest = some res := by
        simpa [mergeRec, hc] using hm
      rw [mergeRec_preserves name rest _ res hnm' h2]
      exact lookupR_appendR_ne name m w hmne d

theorem mergeRec_copies (name : Line) (v : Value) : ∀ (src dst res : RecordT),
    (recNames src).Nodup →
    lookupR name dst = none → lookupR name src = some v →
    mergeRec dst src = some res → lookupR name res = some v
  | .nil, dst, res => by simp [lookupR]
  | .cons m w rest, dst, res => by
    intro hnodup hd hs hm
    have hnd : (m ∉ recNames rest) ∧ (recNames rest).Nodup := by
      simpa [recNames, List.nodup_cons] using hnodup
    by_cases hb : m == name
    · have hmn : m = name := beq_iff_eq.mp hb
      subst hmn
      have hwv : w = v := by simpa [lookupR] using hs
      subst hwv
      have hc : containsR m dst = false := by rw [containsR_eq_isSome, hd]; rfl
      have h2 : mergeRec (appendR dst m w) rest = some res := by
        simpa [mergeRec, hc] using hm
      rw [mergeRec_preserves m rest _ res hnd.1 h2]
      exact lookupR_appendR_self m w dst hc
    · have hmne : m ≠ name := by simpa using hb
      have hs' : lookupR name rest = some v := by simpa [lookupR, hb] using hs
      by_cases hc : containsR m dst
      · rcases hsome : lookupR m dst with _ | a
        · rw [containsR_eq_isSome, hsome] at hc
          simp at hc
        · rcases hmv : mergeVal a w with _ | mm
          · simp [mergeRec, hc, hsome, hmv] at hm
          · have h2 : mergeRec (updateR m mm dst) rest = some res := by
              simpa [mergeRec, hc, hsome, hmv] using hm
            have hd' : lookupR name (updateR m mm dst) = none := by
              rw [lookupR_updateR_ne name m mm hmne dst]
              exact hd
            exact mergeRec_copies name v rest _ res hnd.2 hd' hs' h2
      · have h2 : mergeRec (appendR dst m w) rest = some res := by
          simpa [mergeRec, hc] using hm
        have hd' : lookupR name (appendR dst m w) = none := by
          rw [lookupR_appendR_ne name m w hmne dst]
          exact hd
        exact mergeRec_copies name v rest _ res hnd.2 hd' hs' h2

theorem mergeVal_leaf_none (va vb : Value) (hleaf : isLeafV va = true)
    (hvb : vb ≠ .vRec .nil) : mergeVal va vb = none := by
  cases vb with
  | vStr s => rfl
  | vNum n2 => rfl
  | vRec bs =>
    cases bs with
    | nil => exact absurd rfl hvb
    | cons bn bv brest =>
      cases va with
      | vStr s => rfl
      | vNum n2 => rfl
      | vRec ar => simp [isLeafV] at hleaf

theorem mergeRec_leaf_collision (name : Line) : ∀ (src dst : RecordT) (va vb : Value),
    lookupR name dst = some va → lookupR name src = some vb →
    isLeafV va = true → vb ≠ .vRec .nil →
    mergeRec dst src = none
  | .nil, dst, va, vb => by simp [lookupR]
  | .cons m w rest, dst, va, vb => by
    intro hda hsb hleaf hvb
    by_cases hb : m == name
    · have hmn : m = name := beq_iff_eq.mp hb
      subst hmn
      have hwv : w = vb := by simpa [lookupR] using hsb
      subst hwv
      have hc : containsR m dst = true := by rw [containsR_eq_isSome, hda]; rfl
      simp [mergeRec, hc, hda, mergeVal_leaf_none va w hleaf hvb]
    · have hmne : m ≠ name := by simpa using hb
      have hsb' : lookupR name rest = some vb := by simpa [lookupR, hb] using hsb
      by_cases hc : containsR m dst
      · rcases hsome : lookupR m dst with _ | a
        · rw [containsR_eq_isSome, hsome] at hc
          simp at hc
        · rcases hmv : mergeVal a w with _ | mm
          · simp [mergeRec, hc, hsome, hmv]
          · have hda' : lookupR name (updateR m mm dst) = some va := by
              rw [lookupR_updateR_ne name m mm hmne dst]
              exact hda
            simp only [mergeRec, hc, hsome, hmv, if_pos]
            exact mergeRec_leaf_collision name rest _ va vb hda' hsb' hleaf hvb
      · have hda' : lookupR name (appendR dst m w) = some va :=
          lookupR_appendR_pres name m w va dst hda
        simp only [mergeRec, hc, Bool.false_eq_true, if_false]
        exact mergeRec_leaf_collision name rest _ va vb hda' hsb' hleaf hvb

theorem sectionGo_skip (title : Line) (rest : List Line) (indent : Nat) :
    ∀ pre : List Line, (∀ l ∈ pre, pyStrip l ≠ title) →
      sectionGo title (pre ++ rest) false indent = sectionGo title rest false indent
  | [] => fun _ => rfl
  | l :: ls => by
    intro h
    have h1 : ¬(pyStrip l == title) := by simpa using h l (by simp)
    simp only [List.cons_append, sectionGo, h1, Bool.false_eq_true, if_false]
    exact sectionGo_skip title rest indent ls (fun x hx => h x (by simp [hx]))

/-- C1 (amended): for a field name present in `src` but not in `dst`, a
successful merge deep-copies the `src` value into `dst`; but when `dst`
holds a leaf at a name that `src` also declares (with anything but an
empty nested record), `merge_object_attrs` raises a `TypeError`
(modelled as `none`) instead of keeping `dst`'s value. -/
theorem C1_merge_amended (dst src : RecordT) (name : Line)
    (hnodup : (recNames src).Nodup) :
    (∀ v res, lookupR name dst = none → lookupR name src = some v →
        merge_object_attrs dst src = some res → lookupR name res = some v)
    ∧ (∀ va vb, lookupR name dst = some va → lookupR name src = some vb →
        isLeafV va = true → vb ≠ .vRec .nil →
        merge_object_attrs dst src = none) :=
  ⟨fun v res hd hs hm => mergeRec_copies name v src dst res hnodup hd hs hm,
   fun va vb hda hsb hleaf hvb =>
     mergeRec_leaf_collision name src dst va vb hda hsb hleaf hvb⟩

/-- C1 counterexample: merging a record that declares leaf `X` into a
record that also declares leaf `X` does not keep the destination's value —
it raises (`none`), refuting first-writer-wins as stated. -/
theorem C1_merge_counterexample :
    merge_object_attrs (.cons (chars ("X")) (.vStr (chars ("a"))) .nil)
        (.cons (chars ("X")) (.vStr (chars ("b"))) .nil) = none
    ∧ merge_object_attrs (.cons (chars ("X")) (.vStr (chars ("a"))) .nil)
        (.cons (chars ("X")) (.vStr (chars ("b"))) .nil)
      ≠ some (.cons (chars ("X")) (.vStr (chars ("a"))) .nil) := by
  decide

/-- C1 witness: a concrete successful copy of a fresh field. -/
theorem C1_merge_witness :
    (∀ v res,
        lookupR (chars ("B")) (.cons (chars ("A")) (.vStr (chars ("x"))) .nil) = none →
        lookupR (chars ("B")) (.cons (chars ("B")) (.vNum (.int 1)) .nil) = some v →
        merge_object_attrs (.cons (chars ("A")) (.vStr (chars ("x"))) .nil)
            (.cons (chars ("B")) (.vNum (.int 1)) .nil) = some res →
        lookupR (chars ("B")) res = some v)
    ∧ (∀ va vb,
        lookupR (chars ("B")) (.cons (chars ("A")) (.vStr (chars ("x"))) .nil) = some va →
        lookupR (chars ("B")) (.cons (chars ("B")) (.vNum (.int 1)) .nil) = some vb →
        isLeafV va = true → vb ≠ .vRec .nil →
        merge_object_attrs (.cons (chars ("A")) (.vStr (chars ("x"))) .nil)
            (.cons (chars ("B")) (.vNum (.int 1)) .nil) = none) :=
  C1_merge_amended (.cons (chars ("A")) (.vStr (chars ("x"))) .nil)
    (.cons (chars ("B")) (.vNum (.int 1)) .nil) (chars ("B")) (by decide)

/-- C2: evaluating `lines_find_section` on input whose header label occurs
twice.  The source re-tests the header on every line before the
break test, so the second occurrence re-opens the section: the function
returns all four lines, not only the first occurrence's section, although
its own comment says `only match the first section`. -/
theorem C2_section_first_match_eval :
    lines_find_section [chars ("A"), chars ("  x"), chars ("A"), chars ("  y")]
        (chars ("A"))
      = [chars ("A"), chars ("  x"), chars ("A"), chars ("  y")]
    ∧ lines_find_section [chars ("A"), chars ("  x"), chars ("A"), chars ("  y")]
        (chars ("A"))
      ≠ [chars ("A"), chars ("  x")] := by
  decide

/-- C3: `from_lines` is total — for every schema and every line sequence
the built record has exactly the declared fields, in order and with
matching shapes, recursively; and building against an empty section (what
a failed nested section search produces) yields a fully shaped record
whose every leaf is the `'N/A'` sentinel. -/
theorem C3_build_total (S : Fields) (L : List Line) :
    recMatches S (from_lines S L) = true
    ∧ recAllNA (from_lines S []) = true :=
  ⟨recMatches_from_lines S L, recAllNA_from_lines_empty S⟩

/-- C4: for a primitive field of a schema — if no line contains the
field's label, or the matched line has no colon, the built value is the
`'N/A'` sentinel and the label is absent from the rendered mapping;
otherwise the value is the text after the first colon, stripped, run
through `regex_find`/`str_to_num` for numeric annotations and stored
verbatim (ignoring any allowed set) for string and enumerated-string
annotations. -/
theorem C4_primitive_field (S : Fields) (L : List Line) (name : Line) (pt : PrimType)
    (hf : fieldAt name S = some (.prim pt))
    (hpair : pairwiseOk (fieldNames S) = true) :
    ((∀ l ∈ L, isSubstring (labelOf name) l = false) →
        lookupR name (from_lines S L) = some (.vStr naChars)
        ∧ lookupD (labelOf name) (to_dict (from_lines S L)) = none)
    ∧ ((lines_find_line L (labelOf name)).findIdx? (fun c => c == ':') = none →
        lookupR name (from_lines S L) = some (.vStr naChars)
        ∧ lookupD (labelOf name) (to_dict (from_lines S L)) = none)
    ∧ (∀ p, (lines_find_line L (labelOf name)).findIdx? (fun c => c == ':') = some p →
        ((pt = .tInt ∨ pt = .tFloat) →
          lookupR name (from_lines S L)
            = some (.vNum (str_to_num (regex_find_num
                (pyStrip ((lines_find_line L (labelOf name)).drop (p + 1)))))))
        ∧ (pt = .tStr →
          lookupR name (from_lines S L)
            = some (.vStr (pyStrip ((lines_find_line L (labelOf name)).drop (p + 1)))))
        ∧ (∀ allowed, pt = .tEnum allowed →
          lookupR name (from_lines S L)
            = some (.vStr (pyStrip ((lines_find_line L (labelOf name)).drop (p + 1)))))) := by
  have hlook := lookupR_from_lines name L S (.prim pt) hf
  have hpairR : pairwiseOk (recNames (from_lines S L)) = true := by
    rw [recNames_from_lines]
    exact hpair
  refine ⟨?_, ?_, ?_⟩
  · intro hno
    have hline : lines_find_line L (labelOf name) = [] :=
      lines_find_line_none (labelOf name) L hno
    have hval : lookupR name (from_lines S L) = some (.vStr naChars) := by
      rw [hlook]
      simp [buildField, hline, from_line_empty]
    refine ⟨hval, ?_⟩
    simpa [isNA] using to_dict_lookup (from_lines S L) name (.vStr naChars) hpairR hval
  · intro hcol
    have hval : lookupR name (from_lines S L) = some (.vStr naChars) := by
      rw [hlook]
      simp [buildField, from_line, hcol]
    refine ⟨hval, ?_⟩
    simpa [isNA] using to_dict_lookup (from_lines S L) name (.vStr naChars) hpairR hval
  · intro p hp
    refine ⟨?_, ?_, ?_⟩
    · rintro (rfl | rfl) <;> (rw [hlook]; simp [buildField, from_line, hp])
    · rintro rfl
      rw [hlook]
      simp [buildField, from_line, hp]
    · rintro allowed rfl
      rw [hlook]
      simp [buildField, from_line, hp]

/-- C4 witness: a one-field numeric schema against a report line with a
colon. -/
theorem C4_primitive_field_witness :
    ((∀ l ∈ [chars ("    Fan Speed : 40 %")],
        isSubstring (labelOf (chars ("Fan_Speed"))) l = false) →
        lookupR (chars ("Fan_Speed"))
            (from_lines (.cons (chars ("Fan_Speed")) (.prim .tInt) .nil)
              [chars ("    Fan Speed : 40 %")])
          = some (.vStr naChars)
        ∧ lookupD (labelOf (chars ("Fan_Speed")))
            (to_dict (from_lines (.cons (chars ("Fan_Speed")) (.prim .tInt) .nil)
              [chars ("    Fan Speed : 40 %")])) = none)
    ∧ ((lines_find_line [chars ("    Fan Speed : 40 %")]
          (labelOf (chars ("Fan_Speed")))).findIdx? (fun c => c == ':') = none →
        lookupR (chars ("Fan_Speed"))
            (from_lines (.cons (chars ("Fan_Speed")) (.prim .tInt) .nil)
              [chars ("    Fan Speed : 40 %")])
          = some (.vStr naChars)
        ∧ lookupD (labelOf (chars ("Fan_Speed")))
            (to_dict (from_lines (.cons (chars ("Fan_Speed")) (.prim .tInt) .nil)
              [chars ("    Fan Speed : 40 %")])) = none)
    ∧ (∀ p, (lines_find_line [chars ("    Fan Speed : 40 %")]
          (labelOf (chars ("Fan_Speed")))).findIdx? (fun c => c == ':') = some p →
        ((PrimType.tInt = .tInt ∨ PrimType.tInt = .tFloat) →
          lookupR (chars ("Fan_Speed"))
              (from_lines (.cons (chars ("Fan_Speed")) (.prim .tInt) .nil)
                [chars ("    Fan Speed : 40 %")])
            = some (.vNum (str_to_num (regex_find_num
                (pyStrip ((lines_find_line [chars ("    Fan Speed : 40 %")]
                  (labelOf (chars ("Fan_Speed")))).drop (p + 1)))))))
        ∧ (PrimType.tInt = .tStr →
          lookupR (chars ("Fan_Speed"))
              (from_lines (.cons (chars ("Fan_Speed")) (.prim .tInt) .nil)
                [chars ("    Fan Speed : 40 %")])
            = some (.vStr (pyStrip ((lines_find_line [chars ("    Fan Speed : 40 %")]
                (labelOf (chars ("Fan_Speed")))).drop (p + 1)))))
        ∧ (∀ allowed, PrimType.tInt = .tEnum allowed →
          lookupR (chars ("Fan_Speed"))
              (from_lines (.cons (chars ("Fan_Speed")) (.prim .tInt) .nil)
                [chars ("    Fan Speed : 40 %")])
            = some (.vStr (pyStrip ((lines_find_line [chars ("    Fan Speed : 40 %")]
                (labelOf (chars ("Fan_Speed")))).drop (p + 1)))))) :=
  C4_primitive_field (.cons (chars ("Fan_Speed")) (.prim .tInt) .nil)
    [chars ("    Fan Speed : 40 %")] (chars ("Fan_Speed")) .tInt
    (by decide) (by decide)

/-- C5 (amended): provided no line after the first header occurrence (and
none before it) strips to the label, `lines_find_section` returns the
header line followed by exactly the contiguous run of subsequent lines
with strictly greater leading-space count; the concrete four-line example
returns exactly its first two lines; and an input with no matching header
yields the empty sequence.  (The proviso is forced: a deeper line that
itself strips to the label resets the recorded indentation.) -/
theorem C5_section_boundary (title li : Line) (pre post : List Line)
    (hpre : ∀ l ∈ pre, pyStrip l ≠ title)
    (hli : pyStrip li = title)
    (hpost : ∀ l ∈ post, pyStrip l ≠ title) :
    lines_find_section (pre ++ li :: post) title
      = li :: post.takeWhile
          (fun l => decide (countLeadingSpaces li < countLeadingSpaces l))
    ∧ (∀ lines, (∀ l ∈ lines, pyStrip l ≠ title) →
        lines_find_section lines title = [])
    ∧ lines_find_section [chars ("Temperature"), chars ("  GPU Current Temp: 55"),
          chars ("Clocks"), chars ("  Graphics: 100")] (chars ("Temperature"))
      = [chars ("Temperature"), chars ("  GPU Current Temp: 55")] := by
  refine ⟨?_, fun lines h => sectionGo_notfound title lines 0 h, by decide⟩
  have hbeq : (pyStrip li == title) = true := by simpa using hli
  unfold lines_find_section
  rw [sectionGo_skip title (li :: post) 0 pre hpre]
  simp only [sectionGo, hbeq, if_true]
  rw [sectionGo_found title post (countLeadingSpaces li) hpost]

/-- C5 counterexample: with a deeper line that strips to the label, the
returned section is not the header plus the contiguous strictly-deeper
run — the inner match resets the indentation level and cuts the run
short. -/
theorem C5_section_boundary_counterexample :
    ¬(lines_find_section [chars ("A"), chars ("  A"), chars (" x")] (chars ("A"))
      = chars ("A") :: ([chars ("  A"), chars (" x")].takeWhile
          (fun l => decide (countLeadingSpaces (chars ("A")) < countLeadingSpaces l)))) := by
  decide

/-- C5 witness: the Temperature report. -/
theorem C5_section_boundary_witness :
    lines_find_section ([] ++ chars ("Temperature") ::
        [chars ("  GPU Current Temp: 55"), chars ("Clocks"), chars ("  Graphics: 100")])
        (chars ("Temperature"))
      = chars ("Temperature") ::
          [chars ("  GPU Current Temp: 55"), chars ("Clocks"),
            chars ("  Graphics: 100")].takeWhile
            (fun l => decide (countLeadingSpaces (chars ("Temperature"))
              < countLeadingSpaces l))
    ∧ (∀ lines, (∀ l ∈ lines, pyStrip l ≠ chars ("Temperature")) →
        lines_find_section lines (chars ("Temperature")) = [])
    ∧ lines_find_section [chars ("Temperature"), chars ("  GPU Current Temp: 55"),
          chars ("Clocks"), chars ("  Graphics: 100")] (chars ("Temperature"))
      = [chars ("Temperature"), chars ("  GPU Current Temp: 55")] :=
  C5_section_boundary (chars ("Temperature")) (chars ("Temperature")) []
    [chars ("  GPU Current Temp: 55"), chars ("Clocks"), chars ("  Graphics: 100")]
    (by decide) (by decide) (by decide)

/-- C6: rendering a built record is sparse per leaf — a leaf equal to the
`'N/A'` sentinel is omitted, any other leaf appears under its label, and a
nested record is recursively rendered and embedded under its label (even
when the nested mapping is empty, no condition being placed on it). -/
theorem C6_render_sparse (r : RecordT) (name : Line) (v : Value)
    (hpair : pairwiseOk (recNames r) = true)
    (hv : lookupR name r = some v) :
    (v = .vStr naChars → lookupD (labelOf name) (to_dict r) = none)
    ∧ (∀ s, v = .vStr s → s ≠ naChars →
        lookupD (labelOf name) (to_dict r) = some (.s s))
    ∧ (∀ nv, v = .vNum nv → lookupD (labelOf name) (to_dict r) = some (.n nv))
    ∧ (∀ r2, v = .vRec r2 →
        lookupD (labelOf name) (to_dict r) = some (.m (to_dict r2))) := by
  have h := to_dict_lookup r name v hpair hv
  refine ⟨?_, ?_, ?_, ?_⟩
  · rintro rfl
    simpa [isNA] using h
  · rintro s rfl hs
    have hna : isNA (.vStr s) = false := by simpa [isNA] using hs
    simpa [hna, renderVal] using h
  · rintro nv rfl
    simpa [isNA, renderVal] using h
  · rintro r2 rfl
    simpa [isNA, renderVal, to_dict] using h

/-- C6 witness: a record with a numeric leaf, an absent leaf and an empty
nested record. -/
theorem C6_render_sparse_witness :
    ((Value.vRec .nil) = .vStr naChars →
        lookupD (labelOf (chars ("Driver_Model")))
          (to_dict (.cons (chars ("Fan_Speed")) (.vNum (.int 40))
            (.cons (chars ("Timestamp")) (.vStr naChars)
              (.cons (chars ("Driver_Model")) (.vRec .nil) .nil)))) = none)
    ∧ (∀ s, (Value.vRec .nil) = .vStr s → s ≠ naChars →
        lookupD (labelOf (chars ("Driver_Model")))
          (to_dict (.cons (chars ("Fan_Speed")) (.vNum (.int 40))
            (.cons (chars ("Timestamp")) (.vStr naChars)
              (.cons (chars ("Driver_Model")) (.vRec .nil) .nil)))) = some (.s s))
    ∧ (∀ nv, (Value.vRec .nil) = .vNum nv →
        lookupD (labelOf (chars ("Driver_Model")))
          (to_dict (.cons (chars ("Fan_Speed")) (.vNum (.int 40))
            (.cons (chars ("Timestamp")) (.vStr naChars)
              (.cons (chars ("Driver_Model")) (.vRec .nil) .nil)))) = some (.n nv))
    ∧ (∀ r2, (Value.vRec .nil) = .vRec r2 →
        lookupD (labelOf (chars ("Driver_Model")))
          (to_dict (.cons (chars ("Fan_Speed")) (.vNum (.int 40))
            (.cons (chars ("Timestamp")) (.vStr naChars)
              (.cons (chars ("Driver_Model")) (.vRec .nil) .nil)))) = some (.m (to_dict r2))) :=
  C6_render_sparse
    (.cons (chars ("Fan_Speed")) (.vNum (.int 40))
      (.cons (chars ("Timestamp")) (.vStr naChars)
        (.cons (chars ("Driver_Model")) (.vRec .nil) .nil)))
    (chars ("Driver_Model")) (.vRec .nil) (by decide) (by decide)

/-- C7: `str_to_num` parses as a float and yields an int exactly when the
value equals its integer truncation: `"42.0"` gives the integer `42`,
`"3.5"` gives the float `3.5` (the reduced fraction `7/2`), and a parse
failure such as `"abc"` gives the fallback `-1`. -/
theorem C7_coerce_number :
    str_to_num (chars ("42.0")) = .int 42
    ∧ str_to_num (chars ("3.5")) = .float ⟨7, 2⟩
    ∧ str_to_num (chars ("abc")) = .int (-1) := by
  decide

/-- C8: on the concrete listing line `list_gpus` yields one entry with
integer id 0, model `NVIDIA RTX 9999` and uuid `GPU-abcd-1234`; and any
line on which the pattern search fails contributes no entry, wherever it
appears. -/
theorem C8_list_gpus (L1 L2 : List Line) (l : Line)
    (h : parseGPULine l = none) :
    list_gpus [chars ("GPU 0: NVIDIA RTX 9999 (UUID: GPU-abcd-1234)")]
      = [⟨0, chars ("NVIDIA RTX 9999"), chars ("GPU-abcd-1234")⟩]
    ∧ list_gpus (L1 ++ l :: L2) = list_gpus (L1 ++ L2) := by
  constructor
  · decide
  · simp [list_gpus, List.filterMap_append, List.filterMap_cons, h]

/-- C8 witness: a non-matching line between matching ones is skipped. -/
theorem C8_list_gpus_witness :
    parseGPULine (chars ("some random line")) = none
    ∧ (list_gpus [chars ("GPU 0: NVIDIA RTX 9999 (UUID: GPU-abcd-1234)")]
        = [⟨0, chars ("NVIDIA RTX 9999"), chars ("GPU-abcd-1234")⟩]
      ∧ list_gpus ([chars ("GPU 0: NVIDIA RTX 9999 (UUID: GPU-abcd-1234)")]
            ++ chars ("some random line") :: [])
          = list_gpus ([chars ("GPU 0: NVIDIA RTX 9999 (UUID: GPU-abcd-1234)")] ++ [])) :=
  ⟨by decide,
   C8_list_gpus [chars ("GPU 0: NVIDIA RTX 9999 (UUID: GPU-abcd-1234)")] []
     (chars ("some random line")) (by decide)⟩

/-- C9: a numeric field whose matched line has a colon but whose
post-colon text has no digit and no dot builds to the integer `-1`, not
the `'N/A'` sentinel, and therefore renders under its label with value
`-1`; a string field fed the same `N/A` report text renders as absent. -/
theorem C9_numeric_na (line : Line) (p : Nat)
    (hc : line.findIdx? (fun c => c == ':') = some p)
    (hnd : ∀ c ∈ pyStrip (line.drop (p + 1)), isNumChar c = false) :
    from_line .tInt line = .vNum (.int (-1))
    ∧ from_line .tFloat line = .vNum (.int (-1))
    ∧ from_line .tInt line ≠ .vStr naChars
    ∧ to_dict (.cons (chars ("Fan_Speed"))
          (from_line .tInt (chars ("Fan Speed : N/A"))) .nil)
        = [(chars ("Fan Speed"), .n (.int (-1)))]
    ∧ to_dict (.cons (chars ("Fan_Speed"))
          (from_line .tStr (chars ("Fan Speed : N/A"))) .nil)
        = [] := by
  have hre : regex_find_num (pyStrip (line.drop (p + 1))) = [] :=
    regex_find_num_none _ hnd
  have h1 : from_line .tInt line = .vNum (.int (-1)) := by
    simp only [from_line, hc, hre]
    rfl
  have h2 : from_line .tFloat line = .vNum (.int (-1)) := by
    simp only [from_line, hc, hre]
    rfl
  refine ⟨h1, h2, ?_, by rfl, by rfl⟩
  rw [h1]
  simp

/-- C9 witness: the line `Fan Speed : N/A`. -/
theorem C9_numeric_na_witness :
    from_line .tInt (chars ("Fan Speed : N/A")) = .vNum (.int (-1))
    ∧ from_line .tFloat (chars ("Fan Speed : N/A")) = .vNum (.int (-1))
    ∧ from_line .tInt (chars ("Fan Speed : N/A")) ≠ .vStr naChars
    ∧ to_dict (.cons (chars ("Fan_Speed"))
          (from_line .tInt (chars ("Fan Speed : N/A"))) .nil)
        = [(chars ("Fan Speed"), .n (.int (-1)))]
    ∧ to_dict (.cons (chars ("Fan_Speed"))
          (from_line .tStr (chars ("Fan Speed : N/A"))) .nil)
        = [] :=
  C9_numeric_na (chars ("Fan Speed : N/A")) 10 (by decide) (by decide)

/-- C10: `str_to_num` is total — every input yields a value — and inputs
whose float parse succeeds but whose integer truncation raises (`inf`,
`-inf`, `nan`) fall back to `-1` through the bare `except`. -/
theorem C10_coerce_total :
    (∀ s : Line, ∃ n : PyNum, str_to_num s = n)
    ∧ str_to_num (chars ("inf")) = .int (-1)
    ∧ str_to_num (chars ("-inf")) = .int (-1)
    ∧ str_to_num (chars ("nan")) = .int (-1) :=
  ⟨fun s => ⟨str_to_num s, rfl⟩, by decide, by decide, by decide⟩
